import Mathlib

/-!
# Verification of the CKAN catalog discovery and reconciliation engine

A shallow embedding of the `CkanGroupViewModel` module: the discovery
orchestrator (`_load`), the server-grouping capability coordinator
(`filterResultsByGetCapabilities`, `filterBasedOnGetCapabilities`,
`filterBasedOnGetCapabilitiesResponse`) and the catalog tree builder
(`populateGroupFromResults`), together with theorems checking the
specification's claims about them.

Modelling conventions:
* JavaScript strings are modelled as character lists (`Str`), with
  structural implementations of the string operations the source uses,
  so that every definition evaluates inside the kernel; `toLowerCase` is
  modelled per character (ASCII-faithful), and `<` on strings is the
  lexicographic order on characters, as in JavaScript for BMP text.
* JavaScript `undefined`/`null` valued fields become `Option`;
  a missing `__filtered` property is `none`.
* Asynchronous fetches become oracle functions passed in as parameters
  (`fetchJson`, `fetchCaps`), `none` standing for a rejected fetch (or an
  unparseable response).  `when.all` becomes left-to-right sequencing of
  `Except` values; this is value-faithful because every search-fetch
  failure raises the same `ViewModelError`, so "first rejection in time"
  and "first rejection by index" carry the same value.
* The URI collaborator (explicitly out of scope in the spec) is modelled
  by splitting on the first `?`, then on `&` and `=`, without percent
  decoding.
* Resources are identified by their position `(record index, resource
  index)`; the in-place mutation of the shared `__filtered` property is
  modelled by computing the flag assignment per resource id and applying
  it to the response at the end of the coordinator phase, which is
  observationally equivalent because the tree builder runs only after
  the coordinator has settled.
-/

set_option autoImplicit false

namespace CkanSpec

/-! ## Strings -/

/-- A JavaScript string, as its list of characters. -/
abbrev Str := List Char

/-- Embed a Lean string literal. -/
def str (s : String) : Str := s.data

/-- Split at every occurrence of a separator character. -/
def splitOnChar (sep : Char) : Str → List Str
  | [] => [[]]
  | c :: rest =>
      if c = sep then [] :: splitOnChar sep rest
      else
        match splitOnChar sep rest with
        | [] => [[c]]
        | h :: t => (c :: h) :: t

/-- Join with a separator character. -/
def intercalateChar (sep : Char) : List Str → Str
  | [] => []
  | [s] => s
  | s :: rest => s ++ sep :: intercalateChar sep rest

/-- The model of `String.prototype.toLowerCase`, per character. -/
def toLowerStr (s : Str) : Str := s.map Char.toLower

/-- Replace every occurrence of one character by a string
(`s.replace(/c/g, rep)`). -/
def replaceChar (pat : Char) (rep : Str) : Str → Str
  | [] => []
  | c :: rest => (if c = pat then rep else [c]) ++ replaceChar pat rep rest

/-- Whether `pat` is a prefix of the second argument. -/
def isPrefixStr : Str → Str → Bool
  | [], _ => true
  | _ :: _, [] => false
  | p :: ps, c :: cs => p = c && isPrefixStr ps cs

/-- Whether `pat` occurs as a substring (`s.indexOf(pat) !== -1`). -/
def containsSubstr (pat : Str) : Str → Bool
  | [] => isPrefixStr pat []
  | c :: rest => isPrefixStr pat (c :: rest) || containsSubstr pat rest

/-! ## URL helpers (model of the URI collaborator) -/

/-- Everything before the first `?` of a URL: the result of
`uri.search(''); uri.toString()`. -/
def stripQuery (url : Str) : Str :=
  (splitOnChar '?' url).headD url

/-- Everything after the first `?` of a URL. -/
def queryOf (url : Str) : Str :=
  match splitOnChar '?' url with
  | [] => []
  | _ :: rest => intercalateChar '?' rest

/-- The query parameters, in order: the model of `uri.search(true)`.
A fragment without `=` carries no value and is dropped. -/
def queryPairs (url : Str) : List (Str × Str) :=
  (splitOnChar '&' (queryOf url)).filterMap fun kv =>
    match splitOnChar '=' kv with
    | [] => none
    | [_] => none
    | k :: v :: rest => some (k, intercalateChar '=' (v :: rest))

/-- Case-sensitive lookup of a query parameter (`params.KEY`). -/
def getParam (url key : Str) : Option Str :=
  ((queryPairs url).find? (fun p => p.1 == key)).map (·.2)

/-! ## JavaScript value helpers -/

/-- Truthiness of an optional string: `undefined`/`null` and `""` are
falsy. -/
def jsTruthy : Option Str → Bool
  | some s => !s.isEmpty
  | none => false

/-- The JavaScript `a || b` on optional strings. -/
def jsOrStr (a b : Option Str) : Option Str :=
  if jsTruthy a then a else b

/-- The test `resource.format.match(/^wms$/i)`. -/
def formatIsWms (s : Str) : Bool := toLowerStr s == str "wms"

/-- The test `resource.format.match(/^esri rest$/i)`. -/
def formatIsEsriRest (s : Str) : Bool := toLowerStr s == str "esri rest"

/-! ## Data model: upstream CKAN records -/

/-- One CKAN resource.  `filtered` is the mutable `__filtered` flag,
absent (`none`) until the capability coordinator sets it. -/
structure CkanResource where
  format : Str
  wms_url : Option Str := none
  url : Option Str := none
  filtered : Option Bool := none
deriving DecidableEq, Repr

/-- One group membership of a record (`item.groups[k]`). -/
structure CkanGroupRef where
  display_name : Str
deriving DecidableEq, Repr

/-- The record's `item.organization`. -/
structure CkanOrganization where
  title : Option Str := none
  description : Option Str := none
deriving DecidableEq, Repr

/-- One entry of `item.extras`. -/
structure CkanExtra where
  key : Str
  value : Str
deriving DecidableEq, Repr

/-- One CKAN search-result record. -/
structure CkanItem where
  title : Str
  name : Str := []
  notes : Option Str := none
  license_url : Option Str := none
  extras : Option (List CkanExtra) := none
  geo_coverage : Option Str := none
  organization : Option CkanOrganization := none
  groups : List CkanGroupRef := []
  resources : List CkanResource := []
deriving DecidableEq, Repr

/-- The `json.result` of a `package_search` response. -/
structure PackageSearchResult where
  results : List CkanItem
deriving DecidableEq, Repr

/-- A parsed `package_search` response. -/
structure PackageSearchResponse where
  result : PackageSearchResult
deriving DecidableEq, Repr

/-- A resource id: (record index, resource index) in the merged response.
Stands for the object identity of the mutated resource. -/
abbrev RId := Nat × Nat

/-- The resource stored at position `rid` of a response, if any. -/
def resourceAt (json : PackageSearchResponse) (rid : RId) : Option CkanResource :=
  (json.result.results.get? rid.1).bind fun it => it.resources.get? rid.2

/-- The `__filtered` flag of the resource at `rid` (outer `none` when the
position is out of range). -/
def flagAt (json : PackageSearchResponse) (rid : RId) : Option (Option Bool) :=
  (resourceAt json rid).map (·.filtered)

/-! ## Data model: view-model configuration and collaborators -/

/-- The fields of the `CkanGroupViewModel` read by `_load` and the
functions under it. -/
structure CkanConfig where
  url : Option Str := some []
  dataCustodian : Option Str := none
  filterQuery : Option (List Str) := none
  blacklist : Option (List Str) := none
  filterByWmsGetCapabilities : Bool := false
  minimumMaxScaleDenominator : Option Int := none
  wmsParameters : Option (List (Str × Str)) := none

/-- The `corsProxy` collaborator. -/
structure CorsProxy where
  shouldUseProxy : Str → Bool
  getURL : Str → Str → Str

/-- The `application` object, as far as `_load` reads it. -/
structure Application where
  corsProxy : Option CorsProxy := none

/-- The helper `cleanAndProxyUrl`: strip the query, then maybe route through the
application's proxy. -/
def cleanAndProxyUrl (app : Application) (url : Str) : Str :=
  let cleanedUrl := stripQuery url
  match app.corsProxy with
  | some proxy =>
      if proxy.shouldUseProxy cleanedUrl then proxy.getURL cleanedUrl (str "1d")
      else cleanedUrl
  | none => cleanedUrl

/-! ## Capability documents -/

-- A parsed GetCapabilities document is a forest of layer nodes; the
-- sequence of sibling nodes is a bespoke nil/cons type rather than
-- `List CapLayer` so that the recursive walk is structural (and
-- therefore evaluates inside the kernel).
mutual
/-- One node of a parsed GetCapabilities document: optional `Name`,
optional `MaxScaleDenominator`, optional nested `Layer` children (already
normalised to a sequence; the source wraps a single node into an array). -/
inductive CapLayer : Type where
  | mk (Name : Option Str) (MaxScaleDenominator : Option Int) (Layer : CapForest) : CapLayer
deriving Repr
/-- A sequence of sibling capability layer nodes. -/
inductive CapForest : Type where
  | nil : CapForest
  | cons (head : CapLayer) (tail : CapForest) : CapForest
deriving Repr
end

/-- Whether some node of the forest (recursively) carries `Name = nm`. -/
def mentionsName (nm : Str) : CapForest → Bool
  | .nil => false
  | .cons (.mk n _ children) rest =>
      n == some nm || mentionsName nm children || mentionsName nm rest

/-- The scale test of line 311 of the source:
`!defined(minimumMaxScaleDenominator) || !defined(MaxScaleDenominator) ||
MaxScaleDenominator >= minimumMaxScaleDenominator`. -/
def passesScale : Option Int → Option Int → Bool
  | none, _ => true
  | some _, none => true
  | some t, some m => m ≥ t

/-- The per-server store of candidate resources: layer name (a JS object
property key, so a missing `LAYERS` parameter is the literal key
`"undefined"`) paired with resource id and current `__filtered` value. -/
abbrev FlagStore := List (Str × RId × Bool)

/-- The `layerSource.Name` block of lines 308-318: a truthy `Name` that
matches a stored candidate clears its flag when the scale test passes.
Property keys of a JS object are unique, so the single-property update is
expressed as a map over the association list. -/
def capNameStep (thresh : Option Int) (nm : Option Str) (msd : Option Int)
    (st : FlagStore) : FlagStore :=
  match nm with
  | some n =>
      if n.isEmpty then st
      else st.map fun e =>
        if e.1 = n ∧ passesScale thresh msd then (e.1, e.2.1, false) else e
  | none => st

/-- The walk `filterBasedOnGetCapabilitiesResponse`: traverse the layer forest
pre-order, applying `capNameStep` at every node and recursing into the
node's children before its later siblings. -/
def filterBasedOnGetCapabilitiesResponse (thresh : Option Int) :
    CapForest → FlagStore → FlagStore
  | .nil, st => st
  | .cons (.mk nm msd children) rest, st =>
      filterBasedOnGetCapabilitiesResponse thresh rest
        (filterBasedOnGetCapabilitiesResponse thresh children
          (capNameStep thresh nm msd st))

/-- The per-server `filterBasedOnGetCapabilities`: every grouped resource
starts filtered (`true`); a fetched and parsed document (`some layers`)
is walked, a failed fetch or parse (`none`) leaves everything filtered. -/
def filterBasedOnGetCapabilities (thresh : Option Int)
    (caps : Option CapForest) (resources : List (Str × RId)) : FlagStore :=
  let initial : FlagStore := resources.map fun e => (e.1, e.2, true)
  match caps with
  | none => initial
  | some layers => filterBasedOnGetCapabilitiesResponse thresh layers initial

/-! ## Server grouping (`filterResultsByGetCapabilities`, lines 229-282) -/

/-- A grouping candidate: (stripped endpoint URL, layer-name key, resource
id).  The layer-name key is `params.LAYERS` used as a JS object property
key, so an absent parameter coerces to the string `"undefined"`. -/
structure WmsCandidate where
  server : Str
  layerKey : Str
  rid : RId
deriving DecidableEq, Repr

/-- The candidate URL: `resource.wms_url`, falling back to `resource.url`. -/
def wmsUrlOf (r : CkanResource) : Option Str :=
  match r.wms_url with
  | some u => some u
  | none => r.url

/-- The JS property key `layerName` of lines 251-254. -/
def layerKeyOf (u : Str) : Str :=
  match getParam u (str "LAYERS") with
  | some v => v
  | none => str "undefined"

/-- The candidate produced by record `i`, slot `(j, r)` of the scan loop,
if any. -/
def candOf (i : Nat) (q : Nat × CkanResource) : Option WmsCandidate :=
  if formatIsWms q.2.format then
    match wmsUrlOf q.2 with
    | some u => some ⟨stripQuery u, layerKeyOf u, (i, q.1)⟩
    | none => none
  else none

/-- All WMS grouping candidates of a response, in scan order. -/
def wmsCandidates (json : PackageSearchResponse) : List WmsCandidate :=
  json.result.results.enum.flatMap fun p => p.2.resources.enum.filterMap (candOf p.1)

/-- The per-server map of candidates: JS object insertion-order
association list.  New layer keys append; an existing key is overwritten
in place (`wmsServers[url][layerName] = resource`). -/
def upsertInner (layer : Str) (rid : RId) :
    List (Str × RId) → List (Str × RId)
  | [] => [(layer, rid)]
  | (l, r) :: rest =>
      if l = layer then (l, rid) :: rest else (l, r) :: upsertInner layer rid rest

/-- Insert one candidate into the server map (`wmsServers`). -/
def upsertOuter (server layer : Str) (rid : RId) :
    List (Str × List (Str × RId)) → List (Str × List (Str × RId))
  | [] => [(server, [(layer, rid)])]
  | (u, inner) :: rest =>
      if u = server then (u, upsertInner layer rid inner) :: rest
      else (u, inner) :: upsertOuter server layer rid rest

/-- The `wmsServers` map of lines 230-266. -/
def buildWmsServers (cands : List WmsCandidate) :
    List (Str × List (Str × RId)) :=
  cands.foldl (fun acc c => upsertOuter c.server c.layerKey c.rid acc) []

/-- The GetCapabilities URL for one server, optionally proxied
(lines 272-275). -/
def getCapabilitiesUrlFor (proxy : CorsProxy) (server : Str) : Str :=
  let u := server ++ str "?service=WMS&request=GetCapabilities"
  if proxy.shouldUseProxy u then proxy.getURL u (str "1d") else u

/-- The flag assignment contributed by one server entry. -/
def serverAssignment (thresh : Option Int) (proxy : CorsProxy)
    (fetchCaps : Str → Option CapForest)
    (entry : Str × List (Str × RId)) : List (RId × Bool) :=
  (filterBasedOnGetCapabilities thresh (fetchCaps (getCapabilitiesUrlFor proxy entry.1))
      entry.2).map fun e => (e.2.1, e.2.2)

/-- First-match lookup of a resource id in a flag assignment. -/
def lookupRid (a : List (RId × Bool)) (rid : RId) : Option Bool :=
  (a.find? fun p => p.1 = rid).map (·.2)

/-- Map a list with the position of each element (used to address
resources by id). -/
def mapWithIndex {α β : Type} (f : Nat → α → β) : Nat → List α → List β
  | _, [] => []
  | i, x :: xs => f i x :: mapWithIndex f (i + 1) xs

/-- Write the computed flags back onto the response: the functional
counterpart of the in-place `__filtered` mutations. -/
def applyFlags (a : List (RId × Bool)) (json : PackageSearchResponse) :
    PackageSearchResponse :=
  ⟨⟨mapWithIndex (fun i item =>
      { item with resources := mapWithIndex (fun j r =>
          match lookupRid a (i, j) with
          | some b => { r with filtered := some b }
          | none => r) 0 item.resources }) 0 json.result.results⟩⟩

/-- The coordinator `filterResultsByGetCapabilities`: group the WMS resources by server,
fetch each server's capability document, and settle every grouped
resource's `__filtered` flag. -/
def filterResultsByGetCapabilities (thresh : Option Int) (proxy : CorsProxy)
    (fetchCaps : Str → Option CapForest)
    (json : PackageSearchResponse) : PackageSearchResponse :=
  let servers := buildWmsServers (wmsCandidates json)
  let assignment := servers.flatMap (serverAssignment thresh proxy fetchCaps)
  applyFlags assignment json

/-- The resource ids present in the final server grouping: exactly the
resources whose `__filtered` flag the coordinator manages. -/
def ridsOfServers (servers : List (Str × List (Str × RId))) : List RId :=
  servers.flatMap fun s => s.2.map (·.2)

/-- The resource ids grouped (and kept, after key overwrites) by the
coordinator for a given response. -/
def groupedRids (json : PackageSearchResponse) : List RId :=
  ridsOfServers (buildWmsServers (wmsCandidates json))

/-! ## The output tree -/

/-- The backing type of a constructed catalog item. -/
inductive CatalogItemType where
  | wms
  | esriMapServer
deriving DecidableEq, Repr

/-- The arguments handed to `Rectangle.fromDegrees` (numeric conversion
belongs to the excluded Cesium collaborator). -/
structure Rectangle where
  west : Str
  south : Str
  east : Str
  north : Str
deriving DecidableEq, Repr

/-- A constructed leaf item of the output tree. -/
structure CatalogItemNode where
  type : CatalogItemType
  name : Str
  description : Str
  url : Str
  layers : Option Str
  rectangle : Option Rectangle
  dataUrl : Option Str
  dataUrlType : Option Str
  parameters : Option (List (Str × Str))
  dataCustodian : Option Str
deriving DecidableEq, Repr

/-- A named group directly under the root. -/
structure CatalogGroupNode where
  name : Str
  items : List CatalogItemNode
deriving DecidableEq, Repr

/-- The caller-supplied root: its direct children. -/
structure RootGroup where
  items : List CatalogGroupNode
deriving DecidableEq, Repr

/-! ## Sorting (lines 432-448) -/

/-- The `compareNames` comparator: case-insensitive three-way string
compare. -/
def compareNames (a b : Str) : Int :=
  let aName := toLowerStr a
  let bName := toLowerStr b
  if aName < bName then -1
  else if bName < aName then 1
  else 0

/-- The ordering induced by `compareNames` on name-keyed values. -/
def nameLe {α : Type} (key : α → Str) (a b : α) : Prop :=
  compareNames (key a) (key b) ≤ 0

instance nameLeDecidable {α : Type} (key : α → Str) : DecidableRel (nameLe key) :=
  fun a b => inferInstanceAs (Decidable (compareNames (key a) (key b) ≤ 0))

instance nameLeTotal {α : Type} (key : α → Str) : IsTotal α (nameLe key) := by
  constructor
  intro a b
  simp only [nameLe, compareNames]
  rcases lt_trichotomy (toLowerStr (key a)) (toLowerStr (key b)) with h | h | h
  · left; rw [if_pos h]; norm_num
  · left; rw [h, if_neg (lt_irrefl _), if_neg (lt_irrefl _)]
  · right; rw [if_pos h]; norm_num

instance nameLeTrans {α : Type} (key : α → Str) : IsTrans α (nameLe key) := by
  constructor
  intro a b c hab hbc
  have lei : ∀ x y : Str, compareNames x y ≤ 0 ↔ toLowerStr x ≤ toLowerStr y := by
    intro x y
    simp only [compareNames]
    split_ifs with h1 h2
    · exact iff_of_true (by norm_num) (le_of_lt h1)
    · exact iff_of_false (by norm_num) (not_le.mpr h2)
    · exact iff_of_true le_rfl (not_lt.mp h2)
  simp only [nameLe, lei] at hab hbc ⊢
  exact le_trans hab hbc

/-- The model of `array.sort(compareNames)`: JavaScript's sort is stable (ES2019), and
any stable sort for a total preorder computes the same list, so it is
modelled by a stable insertion sort. -/
def sortByName {α : Type} (key : α → Str) (l : List α) : List α :=
  l.insertionSort (nameLe key)

/-! ## Tree builder (`populateGroupFromResults`, lines 326-449) -/

/-- Whether a name is blacklisted (`viewModel.blacklist &&
viewModel.blacklist[name]`). -/
def blacklisted (cfg : CkanConfig) (name : Str) : Bool :=
  match cfg.blacklist with
  | some bl => bl.contains name
  | none => false

/-- Build the extras map; a later duplicate key overwrites the earlier
value (JS object assignment). -/
def upsertExtra (k v : Str) : List (Str × Str) → List (Str × Str)
  | [] => [(k, v)]
  | (k0, v0) :: rest =>
      if k0 = k then (k0, v) :: rest else (k0, v0) :: upsertExtra k v rest

/-- The `extras` object of lines 346-351. -/
def extrasMapOf (item : CkanItem) : List (Str × Str) :=
  match item.extras with
  | some es => es.foldl (fun acc e => upsertExtra e.key e.value acc) []
  | none => []

/-- Look a key up in the extras map. -/
def extrasGet (m : List (Str × Str)) (k : Str) : Option Str :=
  (m.find? fun p => p.1 == k).map (·.2)

/-- The check `item.notes.indexOf('[Licence]') === -1` negated, i.e. the notes
contain the substring. -/
def containsLicenceRef (notes : Str) : Bool :=
  containsSubstr (str "[Licence]") notes

/-- The description text of lines 336-344. -/
def textDescriptionOf (item : CkanItem) : Str :=
  let base :=
    match item.notes with
    | some n => if n.isEmpty then [] else replaceChar '\n' (str "<br/>") n
    | none => []
  match item.license_url with
  | some lic =>
      if !lic.isEmpty ∧ (item.notes = none ∨ ¬ containsLicenceRef (item.notes.getD [])) then
        base ++ str "<br/>[Licence](" ++ lic ++ str ")"
      else base
  | none => base

/-- The optional bounding rectangle of lines 356-363. -/
def rectangleOf (item : CkanItem) (extras : List (Str × Str)) : Option Rectangle :=
  match jsOrStr item.geo_coverage (extrasGet extras (str "geo_coverage")) with
  | some bbox =>
      match splitOnChar ',' bbox with
      | [a, b, c, d] => some ⟨a, b, c, d⟩
      | _ => none
  | none => none

/-- The data custodian of lines 406-410. -/
def dataCustodianOf (cfg : CkanConfig) (item : CkanItem) : Option Str :=
  if cfg.dataCustodian.isSome then cfg.dataCustodian
  else
    match item.organization with
    | some org =>
        if jsTruthy org.title then jsOrStr org.description org.title else none
    | none => none

/-- The pair `viewModel.findFirstItemByName` followed by `add`: append the item to
the first group with that exact name, creating and appending the group if
absent. -/
def addToGroup (gname : Str) (it : CatalogItemNode) :
    List CatalogGroupNode → List CatalogGroupNode
  | [] => [⟨gname, [it]⟩]
  | g :: rest =>
      if g.name = gname then { g with items := g.items ++ [it] } :: rest
      else g :: addToGroup gname it rest

/-- Process one usable resource of a record: construct the typed item and
add it to every non-blacklisted group membership. -/
def processResource (cfg : CkanConfig) (item : CkanItem)
    (textDescription : Str) (extras : List (Str × Str))
    (rectangle : Option Rectangle) (acc : List CatalogGroupNode)
    (r : CkanResource) : List CatalogGroupNode :=
  if r.filtered = some true ∨ (¬ formatIsWms r.format ∧ ¬ formatIsEsriRest r.format) then
    acc
  else
    match wmsUrlOf r with
    | none => acc
    | some wmsUrl =>
        let layerName := jsOrStr (getParam wmsUrl (str "LAYERS")) (getParam wmsUrl (str "layers"))
        let url := stripQuery wmsUrl
        let newItem : CatalogItemNode :=
          { type := if formatIsEsriRest r.format then .esriMapServer else .wms
            name := item.title
            description := textDescription
            url := url
            layers := layerName
            rectangle := rectangle
            dataUrl := extrasGet extras (str "data_url")
            dataUrlType := extrasGet extras (str "data_url_type")
            parameters := cfg.wmsParameters
            dataCustodian := dataCustodianOf cfg item }
        item.groups.foldl (fun acc2 g =>
          if blacklisted cfg g.display_name then acc2
          else addToGroup g.display_name newItem acc2) acc

/-- Process one record of the merged result list. -/
def processItem (cfg : CkanConfig) (acc : List CatalogGroupNode)
    (item : CkanItem) : List CatalogGroupNode :=
  if blacklisted cfg item.title then acc
  else
    let textDescription := textDescriptionOf item
    let extras := extrasMapOf item
    let rectangle := rectangleOf item extras
    item.resources.foldl
      (processResource cfg item textDescription extras rectangle) acc

/-- The tree builder `populateGroupFromResults`: build the groups and items, then sort the
root's children and each child group's children by `compareNames`. -/
def populateGroupFromResults (cfg : CkanConfig) (root : RootGroup)
    (json : PackageSearchResponse) : RootGroup :=
  let assembled := json.result.results.foldl (processItem cfg) root.items
  let sortedTop := sortByName (·.name) assembled
  ⟨sortedTop.map fun g => { g with items := sortByName (·.name) g.items }⟩

/-! ## Discovery orchestrator (`_load`, lines 171-223) -/

/-- The errors a discovery run can settle with. -/
inductive LoadError where
  | viewModelError (title message : Str)
  | typeError
deriving DecidableEq, Repr

/-- How `_load` completes: the early `return undefined`, a resolved
promise, a rejected promise, or a synchronous throw. -/
inductive LoadResult where
  | returnedUndefined
  | resolved
  | rejected (e : LoadError)
  | threw (e : LoadError)
deriving DecidableEq, Repr

/-- The fixed title of the `handleError` `ViewModelError`. -/
def ckanErrorTitle : Str := str "Group is not available"

/-- The fixed user-facing message of the `handleError` `ViewModelError`
(the source's backslash line continuations keep each line's leading
indentation and drop the newlines). -/
def ckanErrorMessage : Str :=
  str "    An error occurred while invoking package_search on the CKAN server.  "
  ++ str "    <p>If you entered the link manually, please verify that the link is correct.</p>"
  ++ str "    <p>This error may also indicate that the server does not support <a href=\"http://enable-cors.org/\" target=\"_blank\">CORS</a>.  If this is your "
  ++ str "    server, verify that CORS is enabled and enable it if it is not.  If you do not control the server, "
  ++ str "    please contact the administrator of the server and ask them to enable CORS.  Or, contact the National "
  ++ str "    Map team by emailing <a href=\"mailto:nationalmap@lists.nicta.com.au\">nationalmap@lists.nicta.com.au</a> "
  ++ str "    and ask us to add this server to the list of non-CORS-supporting servers that may be proxied by "
  ++ str "    National Map itself.</p>"
  ++ str "    <p>If you did not enter this link manually, this error may indicate that the group you opened is temporarily unavailable or there is a "
  ++ str "    problem with your internet connection.  Try opening the group again, and if the problem persists, please report it by "
  ++ str "    sending an email to <a href=\"mailto:nationalmap@lists.nicta.com.au\">nationalmap@lists.nicta.com.au</a>.</p>"

/-- The error thrown by `handleError` for every failed search fetch. -/
def handleErrorValue : LoadError := .viewModelError ckanErrorTitle ckanErrorMessage

/-- The join `when.all` over promises that already carry `handleError`'s
conversion: first error wins. -/
def whenAll {α : Type} : List (Except LoadError α) → Except LoadError (List α)
  | [] => .ok []
  | .error e :: _ => .error e
  | .ok a :: rest => (whenAll rest).map (a :: ·)

/-- Lines 210-213: seed with `queryResults[0]` and concatenate the rest;
an empty query list leaves the seed `undefined` (`none`). -/
def mergeQueryResults : List PackageSearchResponse → Option PackageSearchResponse
  | [] => none
  | r :: rest =>
      some ⟨⟨rest.foldl (fun acc q => acc ++ q.result.results) r.result.results⟩⟩

/-- The observable outcome of one `_load` call: how the returned value
settles, the final state of the caller's root, and the search URLs
fetched. -/
structure LoadOutcome where
  result : LoadResult
  root : RootGroup
  searchRequests : List Str
deriving Repr

/-- The search URLs built in the loop of lines 197-204. -/
def searchRequestsOf (app : Application) (url : Str) (fq : List Str) : List Str :=
  fq.map fun q =>
    cleanAndProxyUrl app url ++ str "/api/3/action/package_search?rows=100000&" ++ q

/-- The embedding of `_load`.  `fetchJson` and `fetchCaps` are the
transport oracles (`none` = rejected fetch / unparseable payload). -/
def loadCkanGroup (cfg : CkanConfig) (app : Application) (proxy : CorsProxy)
    (fetchJson : Str → Option PackageSearchResponse)
    (fetchCaps : Str → Option CapForest) (root : RootGroup) : LoadOutcome :=
  -- `!defined(this.url) || this.url.length === 0`
  if (match cfg.url with | none => true | some s => s.isEmpty) then
    ⟨.returnedUndefined, root, []⟩
  else
    match cfg.filterQuery with
    | none =>
        -- `this.filterQuery.length` on `undefined` throws synchronously.
        ⟨.threw .typeError, root, []⟩
    | some fq =>
        let requests := searchRequestsOf app (cfg.url.getD []) fq
        let settled : List (Except LoadError PackageSearchResponse) :=
          requests.map fun u =>
            match fetchJson u with
            | some j => .ok j
            | none => .error handleErrorValue
        match whenAll settled with
        | .error e => ⟨.rejected e, root, requests⟩
        | .ok queryResults =>
            -- `queryResults` from `when.all` is always an array, so the
            -- `!defined(queryResults)` early return never fires.
            match mergeQueryResults queryResults with
            | none =>
                -- `allResults` is `undefined`; both `filterResultsByGetCapabilities`
                -- and `populateGroupFromResults` begin by reading
                -- `json.result.results`, which throws a TypeError and
                -- rejects the returned promise.
                ⟨.rejected .typeError, root, requests⟩
            | some allResults =>
                if cfg.filterByWmsGetCapabilities then
                  let filtered :=
                    filterResultsByGetCapabilities cfg.minimumMaxScaleDenominator
                      proxy fetchCaps allResults
                  ⟨.resolved, populateGroupFromResults cfg root filtered, requests⟩
                else
                  ⟨.resolved, populateGroupFromResults cfg root allResults, requests⟩

/-! ## Concrete inputs used by witnesses and counterexamples -/

/-- A proxy collaborator that never rewrites. -/
def noProxy : CorsProxy := ⟨fun _ => false, fun u _ => u⟩

/-- The record of the spec's example scenario. -/
def rainfallRecord : CkanItem :=
  { title := str "Rainfall"
    resources := [{ format := str "WMS", url := some (str "http://s/wms?LAYERS=rain&x=1") }]
    groups := [⟨str "Climate"⟩] }

/-- The merged response of the spec's example scenario. -/
def rainfallJson : PackageSearchResponse := ⟨⟨[rainfallRecord]⟩⟩

/-- The example scenario's configuration: no blacklist, cross-validation
disabled. -/
def exampleConfig : CkanConfig := { url := some (str "http://e") }

/-- The expected item of the example scenario. -/
def rainfallItemNode : CatalogItemNode :=
  { type := .wms, name := str "Rainfall", description := [], url := str "http://s/wms"
    layers := some (str "rain"), rectangle := none, dataUrl := none, dataUrlType := none
    parameters := none, dataCustodian := none }

/-- A configuration with cross-validation enabled. -/
def crossValidatingConfig : CkanConfig :=
  { url := some (str "http://e"), filterByWmsGetCapabilities := true }

/-- Two records from different uploads whose single WMS resources resolve
to the same (endpoint, layer) pair. -/
def duplicateKeyJson : PackageSearchResponse :=
  ⟨⟨[ { title := str "A"
        resources := [{ format := str "wms", url := some (str "http://s/wms?LAYERS=rain") }]
        groups := [⟨str "G"⟩] },
      { title := str "B"
        resources := [{ format := str "wms", url := some (str "http://s/wms?LAYERS=rain") }]
        groups := [⟨str "G"⟩] } ]⟩⟩

/-- A capability oracle for `http://s/wms` whose document does not list
the layer `rain`. -/
def noMatchCaps : Str → Option CapForest := fun u =>
  if u = str "http://s/wms?service=WMS&request=GetCapabilities" then
    some (.cons (.mk (some (str "other")) none .nil) .nil)
  else none

/-- A record whose WMS resource carries its layer name only in a
lowercase `layers` query parameter. -/
def lowercaseLayersJson (u : Str) : PackageSearchResponse :=
  ⟨⟨[ { title := str "C"
        resources := [{ format := str "wms", url := some u }]
        groups := [⟨str "G"⟩] } ]⟩⟩

/-- A capability oracle for `http://s/wms` whose document lists a layer
literally named `undefined`. -/
def undefinedNameCaps : Str → Option CapForest := fun u =>
  if u = str "http://s/wms?service=WMS&request=GetCapabilities" then
    some (.cons (.mk (some (str "undefined")) none .nil) .nil)
  else none

/-- The item built from record `A` of `duplicateKeyJson`. -/
def dupIncludedItemNode : CatalogItemNode :=
  { type := .wms, name := str "A", description := [], url := str "http://s/wms"
    layers := some (str "rain"), rectangle := none, dataUrl := none, dataUrlType := none
    parameters := none, dataCustodian := none }

/-- The item built from the lowercase-`layers` record once its flag is
cleared by a capability layer literally named `undefined`. -/
def undefinedLayerItemNode : CatalogItemNode :=
  { type := .wms, name := str "C", description := [], url := str "http://s/wms"
    layers := some (str "undefined"), rectangle := none, dataUrl := none
    dataUrlType := none, parameters := none, dataCustodian := none }

/-- A capability oracle for `http://s/wms` whose document lists exactly
the layer `rain`, unconstrained in scale. -/
def rainOnlyCaps : Str → Option CapForest := fun u =>
  if u = str "http://s/wms?service=WMS&request=GetCapabilities" then
    some (.cons (.mk (some (str "rain")) none .nil) .nil)
  else none

/-- One record with two WMS resources on two distinct servers. -/
def twoServerJson : PackageSearchResponse :=
  ⟨⟨[ { title := str "D"
        resources := [{ format := str "wms", url := some (str "http://a/wms?LAYERS=x") },
                      { format := str "wms", url := some (str "http://b/wms?LAYERS=y") }]
        groups := [⟨str "G"⟩] } ]⟩⟩

/-- A capability oracle failing for server `a` and listing layer `y` for
server `b`. -/
def capsOnlyB : Str → Option CapForest := fun u =>
  if u = str "http://b/wms?service=WMS&request=GetCapabilities" then
    some (.cons (.mk (some (str "y")) none .nil) .nil)
  else none

/-- Like `capsOnlyB`, but server `a`'s document now also resolves; the
two oracles agree at server `b`. -/
def capsBothAB : Str → Option CapForest := fun u =>
  if u = str "http://a/wms?service=WMS&request=GetCapabilities" then
    some (.cons (.mk (some (str "x")) none .nil) .nil)
  else capsOnlyB u

end CkanSpec

namespace CkanSpec

/-! # Theorems -/

/-- Claim C8. For the input of exactly one record titled `Rainfall` with one
resource of format `WMS` and URL `http://s/wms?LAYERS=rain&x=1`, one group
membership `Climate`, no blacklist, no bounding box, and cross-validation
disabled, the tree builder appends exactly one group `Climate` to the
(initially empty) root, containing exactly one item named `Rainfall` whose
url is the query-stripped `http://s/wms` and whose layer name is `rain`. -/
theorem c8_example_scenario :
    populateGroupFromResults exampleConfig ⟨[]⟩ rainfallJson =
      ⟨[⟨str "Climate", [rainfallItemNode]⟩]⟩ := by
  decide

/-- Claim C3. With cross-validation enabled and minimum scale denominator
`x`, a capability layer node matching a grouped resource by (truthy) name
leaves the resource filtered when its `MaxScaleDenominator` is `x - 1`,
and clears the flag when it is `x`: the comparison is inclusive at the
threshold. -/
theorem c3_threshold_inclusive (x : Int) (n : Str) (rid : RId)
    (hn : ¬ n.isEmpty) :
    filterBasedOnGetCapabilitiesResponse (some x)
        (.cons (.mk (some n) (some (x - 1)) .nil) .nil) [(n, rid, true)] = [(n, rid, true)] ∧
      filterBasedOnGetCapabilitiesResponse (some x)
        (.cons (.mk (some n) (some x) .nil) .nil) [(n, rid, true)] = [(n, rid, false)] := by
  have hlt : ¬ (x - 1 ≥ x) := by omega
  constructor <;>
    simp [filterBasedOnGetCapabilitiesResponse, capNameStep, passesScale, hn, hlt]

/-- Witness for `c3_threshold_inclusive` at `x = 1000`, `n = "rain"`. -/
theorem c3_threshold_inclusive_witness :
    filterBasedOnGetCapabilitiesResponse (some 1000)
        (.cons (.mk (some (str "rain")) (some 999) .nil) .nil) [(str "rain", ((0, 0) : RId), true)] =
        [(str "rain", ((0, 0) : RId), true)] ∧
      filterBasedOnGetCapabilitiesResponse (some 1000)
        (.cons (.mk (some (str "rain")) (some 1000) .nil) .nil) [(str "rain", ((0, 0) : RId), true)] =
        [(str "rain", ((0, 0) : RId), false)] := by
  have h := c3_threshold_inclusive 1000 (str "rain") (0, 0) (by decide)
  simpa using h

/-- Claim C10. When the configured endpoint URL is `undefined` or empty, the
load returns immediately with an undefined result: no fetch is issued, no
error is raised, and the caller's root is unchanged. -/
theorem c10_missing_url_early_return (cfg : CkanConfig) (app : Application)
    (proxy : CorsProxy) (fetchJson : Str → Option PackageSearchResponse)
    (fetchCaps : Str → Option CapForest) (root : RootGroup)
    (h : cfg.url = none ∨ cfg.url = some (str "")) :
    loadCkanGroup cfg app proxy fetchJson fetchCaps root =
      ⟨.returnedUndefined, root, []⟩ := by
  unfold loadCkanGroup
  rcases h with h | h <;> simp [h, str]

/-- Witness for `c10_missing_url_early_return` with an undefined URL. -/
theorem c10_missing_url_early_return_witness :
    loadCkanGroup { url := none } {} noProxy (fun _ => none) (fun _ => none) ⟨[]⟩ =
      ⟨.returnedUndefined, ⟨[]⟩, []⟩ :=
  c10_missing_url_early_return { url := none } {} noProxy (fun _ => none)
    (fun _ => none) ⟨[]⟩ (Or.inl rfl)

/-- Claim C2, counterexample. With a non-empty endpoint URL and an empty
filter-query list the load does *not* complete cleanly: it rejects with a
TypeError (the merge reads `queryResults[0].result` of an `undefined`
seed), contradicting the claim that this is a valid, non-error outcome. -/
theorem c2_counterexample :
    (loadCkanGroup { url := some (str "http://e"), filterQuery := some [] } {}
        noProxy (fun _ => none) (fun _ => none) ⟨[]⟩).result =
      .rejected .typeError := by
  decide

/-- Claim C2, amended. For a configuration whose filter-query list is empty
and whose endpoint URL is non-empty, the load issues zero fetches, but the
merge step then dereferences the missing first query result, so the run
rejects with a TypeError; the caller's root gains no new children. -/
theorem c2_empty_filter_query_rejects (cfg : CkanConfig) (app : Application)
    (proxy : CorsProxy) (fetchJson : Str → Option PackageSearchResponse)
    (fetchCaps : Str → Option CapForest) (root : RootGroup)
    (u : Str) (hu : cfg.url = some u) (hne : ¬ u.isEmpty)
    (hfq : cfg.filterQuery = some []) :
    loadCkanGroup cfg app proxy fetchJson fetchCaps root =
      ⟨.rejected .typeError, root, []⟩ := by
  unfold loadCkanGroup
  simp [hu, hne, hfq, searchRequestsOf, whenAll, mergeQueryResults]

/-- Witness for `c2_empty_filter_query_rejects`. -/
theorem c2_empty_filter_query_rejects_witness :
    loadCkanGroup { url := some (str "http://e"), filterQuery := some [] } {}
        noProxy (fun _ => none) (fun _ => none) ⟨[]⟩ =
      ⟨.rejected .typeError, ⟨[]⟩, []⟩ :=
  c2_empty_filter_query_rejects { url := some (str "http://e"), filterQuery := some [] }
    {} noProxy (fun _ => none) (fun _ => none) ⟨[]⟩ (str "http://e") rfl (by decide) rfl

/-! ## Sorting lemmas -/

/-- The relation `compareNames a b ≤ 0` is the lowercase lexicographic order. -/
theorem compareNames_le_iff (a b : Str) :
    compareNames a b ≤ 0 ↔ toLowerStr a ≤ toLowerStr b := by
  simp only [compareNames]
  split_ifs with h1 h2
  · exact iff_of_true (by norm_num) (le_of_lt h1)
  · exact iff_of_false (by norm_num) (not_le.mpr h2)
  · exact iff_of_true le_rfl (not_lt.mp h2)

/-- Ordered insertion groups each case-insensitive key stably: the
elements whose lowercased key is `k` are the inserted element (if its key
is `k`) followed by those of the original list, in order. -/
theorem filter_orderedInsert_nameKey {α : Type} (key : α → Str) (x : α)
    (l : List α) (k : Str) :
    (l.orderedInsert (nameLe key) x).filter (fun y => toLowerStr (key y) == k) =
      if toLowerStr (key x) == k then
        x :: l.filter (fun y => toLowerStr (key y) == k)
      else l.filter (fun y => toLowerStr (key y) == k) := by
  induction l with
  | nil =>
      by_cases hk : toLowerStr (key x) == k <;>
        simp [List.orderedInsert, List.filter, hk]
  | cons y ys ih =>
      rw [List.orderedInsert]
      by_cases hxy : nameLe key x y
      · rw [if_pos hxy]
        by_cases hk : toLowerStr (key x) == k <;>
          simp [List.filter_cons, hk]
      · rw [if_neg hxy]
        have hyx : toLowerStr (key y) < toLowerStr (key x) := by
          by_contra hcon
          exact hxy ((compareNames_le_iff _ _).mpr (not_lt.mp hcon))
        by_cases hk : toLowerStr (key x) == k
        · have hkx : toLowerStr (key x) = k := by simpa using hk
          have hky : ¬ (toLowerStr (key y) == k) = true := by
            simp only [beq_iff_eq]
            intro hy
            rw [hy, ← hkx] at hyx
            exact lt_irrefl _ hyx
          rw [if_pos hk]
          rw [List.filter_cons, List.filter_cons]
          simp only [hky, if_neg]
          rw [ih, if_pos hk]
          simp [hky]
        · rw [if_neg hk]
          rw [List.filter_cons, List.filter_cons]
          by_cases hky : (toLowerStr (key y) == k) = true <;>
            simp [hky, ih, hk]

/-- Stability of the modelled sort: for every case-insensitive key, the
sublist of elements carrying that key is unchanged by sorting. -/
theorem filter_sortByName {α : Type} (key : α → Str) (l : List α) (k : Str) :
    (sortByName key l).filter (fun y => toLowerStr (key y) == k) =
      l.filter (fun y => toLowerStr (key y) == k) := by
  induction l with
  | nil => rfl
  | cons x xs ih =>
      show ((xs.insertionSort (nameLe key)).orderedInsert (nameLe key) x).filter _ = _
      rw [filter_orderedInsert_nameKey]
      by_cases hk : toLowerStr (key x) == k
      · rw [if_pos hk, List.filter_cons]
        simp only [hk, if_pos]
        rw [show (xs.insertionSort (nameLe key)).filter (fun y => toLowerStr (key y) == k)
              = xs.filter (fun y => toLowerStr (key y) == k) from ih]
      · rw [if_neg hk, List.filter_cons]
        simp only [hk]
        rw [show (xs.insertionSort (nameLe key)).filter (fun y => toLowerStr (key y) == k)
              = xs.filter (fun y => toLowerStr (key y) == k) from ih]
        simp

/-- Claim C5. After tree assembly, the root's direct children and each
group's direct children are sorted by the case-insensitive comparator,
and the sort is stable: it permutes its input, elements with the same
case-insensitive key keep their relative order (their filtered sublist is
unchanged), and the spec's example `["Water", "apple", "Apple"]` sorts to
`["apple", "Apple", "Water"]`. -/
theorem c5_sorted_case_insensitive_stable (cfg : CkanConfig) (root : RootGroup)
    (json : PackageSearchResponse) (g : CatalogGroupNode)
    (hg : g ∈ (populateGroupFromResults cfg root json).items)
    (l : List CatalogGroupNode) (k : Str) :
    List.Sorted (nameLe (fun g2 => g2.name))
        (populateGroupFromResults cfg root json).items ∧
      List.Sorted (nameLe (fun it => it.name)) g.items ∧
      (sortByName (fun g2 => g2.name) l).filter (fun y => toLowerStr y.name == k) =
        l.filter (fun y => toLowerStr y.name == k) ∧
      (sortByName (fun g2 => g2.name) l).Perm l ∧
      sortByName (fun s : Str => s) [str "Water", str "apple", str "Apple"] =
        [str "apple", str "Apple", str "Water"] := by
  refine ⟨?_, ?_, filter_sortByName _ l k, List.perm_insertionSort _ l, by decide⟩
  · simp only [populateGroupFromResults]
    rw [List.Sorted, List.pairwise_map]
    exact List.sorted_insertionSort (nameLe (fun g2 : CatalogGroupNode => g2.name))
      (json.result.results.foldl (processItem cfg) root.items)
  · rcases List.mem_map.mp hg with ⟨g0, _, hmap⟩
    have : g.items = sortByName (fun it => it.name) g0.items := by
      rw [← hmap]
    rw [this]
    exact List.sorted_insertionSort _ _

/-- Witness for `c5_sorted_case_insensitive_stable` on the example
scenario's output tree. -/
theorem c5_sorted_case_insensitive_stable_witness :
    List.Sorted (nameLe (fun g2 => g2.name))
        (populateGroupFromResults exampleConfig ⟨[]⟩ rainfallJson).items ∧
      List.Sorted (nameLe (fun it => it.name))
        (⟨str "Climate", [rainfallItemNode]⟩ : CatalogGroupNode).items ∧
      (sortByName (fun g2 => g2.name)
          ([⟨str "Water", []⟩, ⟨str "apple", []⟩, ⟨str "Apple", []⟩] :
            List CatalogGroupNode)).filter
          (fun y => toLowerStr y.name == str "apple") =
        ([⟨str "Water", []⟩, ⟨str "apple", []⟩, ⟨str "Apple", []⟩] :
          List CatalogGroupNode).filter (fun y => toLowerStr y.name == str "apple") ∧
      (sortByName (fun g2 => g2.name)
          ([⟨str "Water", []⟩, ⟨str "apple", []⟩, ⟨str "Apple", []⟩] :
            List CatalogGroupNode)).Perm
        ([⟨str "Water", []⟩, ⟨str "apple", []⟩, ⟨str "Apple", []⟩] :
          List CatalogGroupNode) ∧
      sortByName (fun s : Str => s) [str "Water", str "apple", str "Apple"] =
        [str "apple", str "Apple", str "Water"] :=
  c5_sorted_case_insensitive_stable exampleConfig ⟨[]⟩ rainfallJson
    ⟨str "Climate", [rainfallItemNode]⟩ (by decide)
    ([⟨str "Water", []⟩, ⟨str "apple", []⟩, ⟨str "Apple", []⟩] :
      List CatalogGroupNode) (str "apple")

/-! ## Merge lemmas -/

/-- The concatenation loop of lines 210-213, as a flatten. -/
theorem foldl_append_results (rest : List PackageSearchResponse)
    (init : List CkanItem) :
    rest.foldl (fun acc q => acc ++ q.result.results) init =
      init ++ (rest.map fun q => q.result.results).flatten := by
  induction rest generalizing init with
  | nil => simp
  | cons r t ih => simp [ih, List.append_assoc]

/-- Splitting a flatten at two positions. -/
theorem flatten_split {β : Type} (L : List (List β)) (i j : Nat)
    (hi : i < L.length) (hj : j < L.length) (hij : i < j) :
    L.flatten =
      (L.take i).flatten ++ L[i] ++ ((L.drop (i + 1)).take (j - i - 1)).flatten
        ++ L[j] ++ (L.drop (j + 1)).flatten := by
  have key : L = L.take i ++ L[i] ::
      ((L.drop (i + 1)).take (j - i - 1) ++ L[j] :: L.drop (j + 1)) := by
    conv_lhs => rw [← List.take_append_drop i L]
    congr 1
    rw [List.drop_eq_getElem_cons hi]
    congr 1
    conv_lhs => rw [← List.take_append_drop (j - i - 1) (L.drop (i + 1))]
    congr 1
    rw [List.drop_drop]
    have hidx : i + 1 + (j - i - 1) = j := by omega
    rw [hidx, List.drop_eq_getElem_cons hj]
  conv_lhs => rw [key]
  simp only [List.flatten_append, List.flatten_cons, List.append_assoc]

/-- Claim C4. When every search fetch succeeds, the merged record list is
the concatenation of the per-query result arrays in filter-query
declaration order: for `i < j`, the records of query `i` form a block
strictly before the block of the records of query `j`, independently of
fetch completion order (the join collects results by query index). -/
theorem c4_merge_preserves_declaration_order
    (resps : List PackageSearchResponse) (i j : Nat)
    (hi : i < resps.length) (hj : j < resps.length) (hij : i < j) :
    mergeQueryResults resps =
        some ⟨⟨((resps.map fun q => q.result.results).flatten)⟩⟩ ∧
      ((resps.map fun q => q.result.results).flatten) =
        (((resps.map fun q => q.result.results).take i).flatten)
          ++ (resps.get ⟨i, hi⟩).result.results
          ++ ((((resps.map fun q => q.result.results).drop (i + 1)).take (j - i - 1)).flatten)
          ++ (resps.get ⟨j, hj⟩).result.results
          ++ (((resps.map fun q => q.result.results).drop (j + 1)).flatten) := by
  constructor
  · match resps, hi with
    | r :: rest, _ =>
        simp [mergeQueryResults, foldl_append_results]
  · have hi' : i < (resps.map fun q => q.result.results).length := by
      simpa using hi
    have hj' : j < (resps.map fun q => q.result.results).length := by
      simpa using hj
    have h := flatten_split (resps.map fun q => q.result.results) i j hi' hj' hij
    rw [h]
    have hgi : (resps.map fun q => q.result.results)[i] = (resps.get ⟨i, hi⟩).result.results := by
      simp [List.getElem_map, List.get_eq_getElem]
    have hgj : (resps.map fun q => q.result.results)[j] = (resps.get ⟨j, hj⟩).result.results := by
      simp [List.getElem_map, List.get_eq_getElem]
    rw [hgi, hgj]

/-- Witness for `c4_merge_preserves_declaration_order` on two singleton
query results. -/
theorem c4_merge_preserves_declaration_order_witness :
    mergeQueryResults [⟨⟨[{ title := str "A" }]⟩⟩, ⟨⟨[{ title := str "B" }]⟩⟩] =
        some ⟨⟨(([⟨⟨[{ title := str "A" }]⟩⟩, ⟨⟨[{ title := str "B" }]⟩⟩] :
            List PackageSearchResponse).map fun q => q.result.results).flatten⟩⟩ ∧
      ((([⟨⟨[{ title := str "A" }]⟩⟩, ⟨⟨[{ title := str "B" }]⟩⟩] :
            List PackageSearchResponse).map fun q => q.result.results).flatten) =
        (((([⟨⟨[{ title := str "A" }]⟩⟩, ⟨⟨[{ title := str "B" }]⟩⟩] :
            List PackageSearchResponse).map fun q => q.result.results).take 0).flatten)
          ++ (([⟨⟨[{ title := str "A" }]⟩⟩, ⟨⟨[{ title := str "B" }]⟩⟩] :
            List PackageSearchResponse).get ⟨0, by decide⟩).result.results
          ++ ((((([⟨⟨[{ title := str "A" }]⟩⟩, ⟨⟨[{ title := str "B" }]⟩⟩] :
            List PackageSearchResponse).map fun q => q.result.results).drop (0 + 1)).take
              (1 - 0 - 1)).flatten)
          ++ (([⟨⟨[{ title := str "A" }]⟩⟩, ⟨⟨[{ title := str "B" }]⟩⟩] :
            List PackageSearchResponse).get ⟨1, by decide⟩).result.results
          ++ (((([⟨⟨[{ title := str "A" }]⟩⟩, ⟨⟨[{ title := str "B" }]⟩⟩] :
            List PackageSearchResponse).map fun q => q.result.results).drop (1 + 1)).flatten) :=
  c4_merge_preserves_declaration_order
    [⟨⟨[{ title := str "A" }]⟩⟩, ⟨⟨[{ title := str "B" }]⟩⟩] 0 1
    (by decide) (by decide) (by decide)

/-! ## Orchestrator failure lemmas -/

/-- If any search fetch fails, the join rejects with `handleError`'s
fixed `ViewModelError`. -/
theorem whenAll_error_of_failure (requests : List Str)
    (fetchJson : Str → Option PackageSearchResponse)
    (h : ∃ q ∈ requests, fetchJson q = none) :
    whenAll (requests.map fun u =>
        match fetchJson u with
        | some j => Except.ok j
        | none => Except.error handleErrorValue) = Except.error handleErrorValue := by
  induction requests with
  | nil => simp at h
  | cons q qs ih =>
      rcases h with ⟨q0, hq0, hf⟩
      rw [List.map_cons]
      cases hfq : fetchJson q with
      | none => rfl
      | some j =>
          have hmem : ∃ r ∈ qs, fetchJson r = none := by
            rcases List.mem_cons.mp hq0 with rfl | hmem
            · rw [hfq] at hf; cases hf
            · exact ⟨q0, hmem, hf⟩
          show (whenAll _).map _ = _
          rw [ih hmem]
          rfl

/-- Claim C7. If any one of the parallel search fetches fails, the load
rejects with the single fixed `ViewModelError` (title `Group is not
available` and the fixed user-facing message), every search URL was still
issued, and the caller's root is left unchanged: no partial tree. -/
theorem c7_upstream_failure_fatal (cfg : CkanConfig) (app : Application)
    (proxy : CorsProxy) (fetchJson : Str → Option PackageSearchResponse)
    (fetchCaps : Str → Option CapForest) (root : RootGroup)
    (u : Str) (fqs : List Str)
    (hu : cfg.url = some u) (hne : ¬ u.isEmpty)
    (hfq : cfg.filterQuery = some fqs)
    (hfail : ∃ q ∈ searchRequestsOf app u fqs, fetchJson q = none) :
    loadCkanGroup cfg app proxy fetchJson fetchCaps root =
      ⟨.rejected (.viewModelError ckanErrorTitle ckanErrorMessage), root,
        searchRequestsOf app u fqs⟩ := by
  unfold loadCkanGroup
  rw [hu, hfq]
  simp only [hne, Bool.false_eq_true, if_false, Option.getD_some]
  rw [whenAll_error_of_failure _ _ hfail]
  rfl

/-- Witness for `c7_upstream_failure_fatal`: two filter queries, all
fetches failing. -/
theorem c7_upstream_failure_fatal_witness :
    loadCkanGroup
        { url := some (str "http://e"), filterQuery := some [str "fq=a", str "fq=b"] }
        {} noProxy (fun _ => none) (fun _ => none) ⟨[]⟩ =
      ⟨.rejected (.viewModelError ckanErrorTitle ckanErrorMessage), ⟨[]⟩,
        searchRequestsOf {} (str "http://e") [str "fq=a", str "fq=b"]⟩ :=
  c7_upstream_failure_fatal
    { url := some (str "http://e"), filterQuery := some [str "fq=a", str "fq=b"] }
    {} noProxy (fun _ => none) (fun _ => none) ⟨[]⟩ (str "http://e")
    [str "fq=a", str "fq=b"] rfl (by decide) rfl
    ⟨str "http://e/api/3/action/package_search?rows=100000&fq=a", by decide, rfl⟩

/-! ## Capability coordinator lemmas -/

/-- The capability walk only rewrites flag values: the (layer name,
resource id) skeleton of the store is preserved. -/
theorem walk_preserves_shape (thresh : Option Int) (ls : CapForest)
    (st : FlagStore) :
    (filterBasedOnGetCapabilitiesResponse thresh ls st).map (fun e => (e.1, e.2.1)) =
      st.map fun e => (e.1, e.2.1) := by
  induction ls, st using filterBasedOnGetCapabilitiesResponse.induct thresh with
  | case1 st => rfl
  | case2 nm msd children rest st ih1 ih2 =>
      have estep : filterBasedOnGetCapabilitiesResponse thresh
            (.cons (.mk nm msd children) rest) st =
          filterBasedOnGetCapabilitiesResponse thresh rest
            (filterBasedOnGetCapabilitiesResponse thresh children
              (capNameStep thresh nm msd st)) := rfl
      rw [estep, ih2, ih1]
      unfold capNameStep
      cases nm with
      | none => rfl
      | some n =>
          by_cases hn : n.isEmpty
          · simp [hn]
          · simp only [hn, Bool.false_eq_true, if_false]
            rw [List.map_map]
            apply List.map_congr_left
            intro e _
            by_cases he : e.1 = n ∧ passesScale thresh msd <;> simp [he]

/-- A walk over a document mentioning none of the stored layer names
leaves the store untouched. -/
theorem walk_no_mention (thresh : Option Int) (ls : CapForest)
    (st : FlagStore) (h : ∀ e ∈ st, mentionsName e.1 ls = false) :
    filterBasedOnGetCapabilitiesResponse thresh ls st = st := by
  induction ls, st using filterBasedOnGetCapabilitiesResponse.induct thresh with
  | case1 st => rfl
  | case2 nm msd children rest st ih1 ih2 =>
      have hstep : ∀ e, e ∈ st → (nm == some e.1) = false ∧
          mentionsName e.1 children = false ∧ mentionsName e.1 rest = false := by
        intro e he
        have := h e he
        rw [mentionsName] at this
        simp only [Bool.or_eq_false_iff] at this
        exact ⟨this.1.1, this.1.2, this.2⟩
      have hst1 : capNameStep thresh nm msd st = st := by
        unfold capNameStep
        cases nm with
        | none => rfl
        | some n =>
            by_cases hn : n.isEmpty
            · simp [hn]
            · simp only [hn, Bool.false_eq_true, if_false]
              have hall : ∀ e ∈ st, (if e.1 = n ∧ passesScale thresh msd then
                  (e.1, e.2.1, false) else e) = e := by
                intro e he
                have hne : ¬ (e.1 = n) := by
                  intro hcon
                  have hb := (hstep e he).1
                  rw [hcon] at hb
                  simp at hb
                rw [if_neg]
                intro hcon
                exact hne hcon.1
              calc st.map (fun e => if e.1 = n ∧ passesScale thresh msd then
                      (e.1, e.2.1, false) else e)
                  = st.map id := List.map_congr_left hall
                _ = st := List.map_id st
      have estep : filterBasedOnGetCapabilitiesResponse thresh
            (.cons (.mk nm msd children) rest) st =
          filterBasedOnGetCapabilitiesResponse thresh rest
            (filterBasedOnGetCapabilitiesResponse thresh children
              (capNameStep thresh nm msd st)) := rfl
      rw [hst1] at ih1 ih2
      have h1 : filterBasedOnGetCapabilitiesResponse thresh children st = st :=
        ih1 (fun e he => (hstep e he).2.1)
      rw [h1] at ih2
      rw [estep, hst1, h1]
      exact ih2 (fun e he => (hstep e he).2.2)

/-- The per-server `filterBasedOnGetCapabilities` returns a store whose (layer name,
resource id) skeleton is exactly the grouped candidate list. -/
theorem filterCaps_shape (thresh : Option Int) (caps : Option CapForest)
    (resources : List (Str × RId)) :
    (filterBasedOnGetCapabilities thresh caps resources).map (fun e => (e.1, e.2.1)) =
      resources := by
  unfold filterBasedOnGetCapabilities
  cases caps with
  | none =>
      rw [List.map_map]
      exact List.map_id resources
  | some layers =>
      rw [walk_preserves_shape, List.map_map]
      exact List.map_id resources

/-- The ids carried by one server's flag assignment are its grouped
resource ids. -/
theorem serverAssignment_map_fst (thresh : Option Int) (proxy : CorsProxy)
    (fetchCaps : Str → Option CapForest) (entry : Str × List (Str × RId)) :
    (serverAssignment thresh proxy fetchCaps entry).map (·.1) = entry.2.map (·.2) := by
  unfold serverAssignment
  rw [List.map_map]
  have h := filterCaps_shape thresh
    (fetchCaps (getCapabilitiesUrlFor proxy entry.1)) entry.2
  have h2 : ((filterBasedOnGetCapabilities thresh
      (fetchCaps (getCapabilitiesUrlFor proxy entry.1)) entry.2).map
        (fun e => (e.1, e.2.1))).map (·.2) = entry.2.map (·.2) := by rw [h]
  rw [List.map_map] at h2
  exact h2

/-- The ids of the whole flag assignment are the grouped ids, regardless
of the capability oracle. -/
theorem assignment_map_fst (thresh : Option Int) (proxy : CorsProxy)
    (fetchCaps : Str → Option CapForest)
    (servers : List (Str × List (Str × RId))) :
    ((servers.flatMap (serverAssignment thresh proxy fetchCaps)).map (·.1)) =
      ridsOfServers servers := by
  rw [List.map_flatMap]
  unfold ridsOfServers
  simp only [serverAssignment_map_fst]

/-- A grouped entry contributes some flag decision for its resource id. -/
theorem mem_serverAssignment (thresh : Option Int) (proxy : CorsProxy)
    (fetchCaps : Str → Option CapForest) (entry : Str × List (Str × RId))
    (l : Str) (r : RId) (h : (l, r) ∈ entry.2) :
    ∃ b, (r, b) ∈ serverAssignment thresh proxy fetchCaps entry := by
  have hsh := filterCaps_shape thresh
    (fetchCaps (getCapabilitiesUrlFor proxy entry.1)) entry.2
  rw [← hsh] at h
  rcases List.mem_map.mp h with ⟨e, he, hcomp⟩
  refine ⟨e.2.2, ?_⟩
  unfold serverAssignment
  refine List.mem_map.mpr ⟨e, he, ?_⟩
  have : e.2.1 = r := congrArg Prod.snd hcomp
  rw [this]

/-- A failed (or unparseable) capability fetch leaves every grouped
resource of that server marked `true` (excluded). -/
theorem serverAssignment_of_failure (thresh : Option Int) (proxy : CorsProxy)
    (fetchCaps : Str → Option CapForest) (entry : Str × List (Str × RId))
    (hfail : fetchCaps (getCapabilitiesUrlFor proxy entry.1) = none) :
    serverAssignment thresh proxy fetchCaps entry =
      entry.2.map fun p => (p.2, true) := by
  unfold serverAssignment filterBasedOnGetCapabilities
  rw [hfail]
  rw [List.map_map]
  rfl

/-! ## Flag lookup and application lemmas -/

/-- The lookup `lookupRid` misses exactly the ids outside the assignment. -/
theorem lookupRid_eq_none (a : List (RId × Bool)) (rid : RId)
    (h : rid ∉ a.map (·.1)) : lookupRid a rid = none := by
  unfold lookupRid
  rw [List.find?_eq_none.mpr]
  · rfl
  · intro p hp
    simp only [decide_eq_true_eq]
    intro hcon
    exact h (List.mem_map.mpr ⟨p, hp, hcon⟩)

/-- The lookup `lookupRid` hits some value for every id of the assignment. -/
theorem lookupRid_isSome_of_mem (a : List (RId × Bool)) (rid : RId)
    (h : rid ∈ a.map (·.1)) : (lookupRid a rid).isSome = true := by
  induction a with
  | nil => simp at h
  | cons p t ih =>
      by_cases hp : p.1 = rid
      · unfold lookupRid
        rw [List.find?_cons_of_pos]
        · rfl
        · simp [hp]
      · have hmem : rid ∈ t.map (·.1) := by
          rcases List.mem_map.mp h with ⟨q, hq, hqr⟩
          rcases List.mem_cons.mp hq with rfl | hq2
          · exact absurd hqr hp
          · exact List.mem_map.mpr ⟨q, hq2, hqr⟩
        unfold lookupRid
        rw [List.find?_cons_of_neg]
        · exact ih hmem
        · simp [hp]

/-- With no duplicate ids, `lookupRid` returns the recorded value. -/
theorem lookupRid_eq_of_mem_nodup (a : List (RId × Bool)) (rid : RId) (b : Bool)
    (hmem : (rid, b) ∈ a) (hnd : (a.map (·.1)).Nodup) : lookupRid a rid = some b := by
  induction a with
  | nil => simp at hmem
  | cons p t ih =>
      rw [List.map_cons, List.nodup_cons] at hnd
      rcases List.mem_cons.mp hmem with rfl | hmem2
      · unfold lookupRid
        rw [List.find?_cons_of_pos]
        · rfl
        · simp
      · have hp : ¬ (p.1 = rid) := by
          intro hcon
          exact hnd.1 (by
            rw [hcon]
            exact List.mem_map.mpr ⟨(rid, b), hmem2, rfl⟩)
        unfold lookupRid
        rw [List.find?_cons_of_neg]
        · exact ih hmem2 hnd.2
        · simp [hp]

/-- Indexed mapping, read back positionally. -/
theorem mapWithIndex_get? {α β : Type} (f : Nat → α → β) (s k : Nat) (l : List α) :
    (mapWithIndex f s l).get? k = (l.get? k).map (f (s + k)) := by
  induction l generalizing s k with
  | nil => simp [mapWithIndex]
  | cons x xs ih =>
      cases k with
      | zero => simp [mapWithIndex]
      | succ k =>
          show (mapWithIndex f (s + 1) xs).get? k = (xs.get? k).map (f (s + (k + 1)))
          rw [ih (s + 1) k]
          have harith : s + 1 + k = s + (k + 1) := by omega
          rw [harith]

/-- Applying a flag assignment rewrites exactly the looked-up resource. -/
theorem resourceAt_applyFlags (a : List (RId × Bool))
    (json : PackageSearchResponse) (rid : RId) :
    resourceAt (applyFlags a json) rid =
      (resourceAt json rid).map fun r =>
        match lookupRid a rid with
        | some b => { r with filtered := some b }
        | none => r := by
  unfold resourceAt applyFlags
  rw [mapWithIndex_get?]
  cases houter : json.result.results.get? rid.1 with
  | none => rfl
  | some item =>
      simp only [Nat.zero_add, Option.map_some', Option.some_bind]
      rw [mapWithIndex_get?]
      cases hinner : item.resources.get? rid.2 with
      | none => rfl
      | some r =>
          simp only [Nat.zero_add, Option.map_some']

/-! ## Uniqueness of grouped resource ids -/

/-- A candidate produced at scan slot `(i, j)` carries exactly that id. -/
theorem candOf_rid (i : Nat) (q : Nat × CkanResource) (c : WmsCandidate)
    (h : candOf i q = some c) : c.rid = (i, q.1) := by
  unfold candOf at h
  by_cases hw : formatIsWms q.2.format
  · rw [if_pos hw] at h
    cases hu : wmsUrlOf q.2 with
    | none => rw [hu] at h; cases h
    | some u =>
        rw [hu] at h
        injection h with h2
        rw [← h2]
  · rw [if_neg hw] at h; cases h

/-- The ids contributed by one record's resources, as a sublist of all
its slot positions. -/
theorem inner_rids_sublist (i : Nat) (l : List (Nat × CkanResource)) :
    List.Sublist ((l.filterMap (candOf i)).map (·.rid)) (l.map fun q => (i, q.1)) := by
  induction l with
  | nil => simp
  | cons q t ih =>
      rw [List.filterMap_cons, List.map_cons]
      cases hc : candOf i q with
      | none => exact ih.cons _
      | some c =>
          rw [List.map_cons, candOf_rid i q c hc]
          exact ih.cons₂ _

/-- An id contributed by record `i` has first component `i`. -/
theorem rid_fst_of_mem (i : Nat) (l : List (Nat × CkanResource)) (x : RId)
    (hx : x ∈ (l.filterMap (candOf i)).map (·.rid)) : x.1 = i := by
  rcases List.mem_map.mp hx with ⟨c, hc, hrid⟩
  rcases List.mem_filterMap.mp hc with ⟨q, _, hcand⟩
  rw [← hrid, candOf_rid i q c hcand]

/-- Every resource is scanned once: the candidate ids are pairwise
distinct. -/
theorem candRids_nodup (json : PackageSearchResponse) :
    ((wmsCandidates json).map (·.rid)).Nodup := by
  unfold wmsCandidates
  rw [List.map_flatMap]
  rw [List.nodup_flatMap]
  constructor
  · intro p _
    have hsub := inner_rids_sublist p.1 p.2.resources.enum
    have htgt : (p.2.resources.enum.map fun q => (p.1, q.1)).Nodup := by
      have hrw : (p.2.resources.enum.map fun q => (p.1, q.1)) =
          (p.2.resources.enum.map Prod.fst).map fun x => (p.1, x) := by
        rw [List.map_map]
        rfl
      rw [hrw]
      refine (List.nodup_enum_map_fst _).map ?_
      intro a b hab
      injection hab
    exact List.Nodup.sublist hsub htgt
  · have hfst := List.nodup_enum_map_fst json.result.results
    have hpw : json.result.results.enum.Pairwise fun a b => a.1 ≠ b.1 :=
      List.pairwise_map.mp hfst
    refine hpw.imp ?_
    intro a b hne x hxa hxb
    exact hne ((rid_fst_of_mem a.1 _ x hxa) ▸ (rid_fst_of_mem b.1 _ x hxb) ▸ rfl)

/-- Overwriting a layer key keeps the stored ids within `rid` plus the
previous ids. -/
theorem upsertInner_rids_le (layer : Str) (rid : RId) (inner : List (Str × RId)) :
    (((upsertInner layer rid inner).map (·.2) : List RId) : Multiset RId) ≤
      rid ::ₘ ((inner.map (·.2) : List RId) : Multiset RId) := by
  induction inner with
  | nil => simp [upsertInner]
  | cons p t ih =>
      obtain ⟨l0, r0⟩ := p
      rw [upsertInner]
      by_cases hl : l0 = layer
      · rw [if_pos hl]
        simp only [List.map_cons, ← Multiset.cons_coe]
        exact Multiset.cons_le_cons rid (Multiset.le_cons_self _ _)
      · rw [if_neg hl]
        simp only [List.map_cons, ← Multiset.cons_coe]
        rw [Multiset.cons_swap]
        exact Multiset.cons_le_cons r0 ih

/-- Inserting a candidate into the server map adds at most its id. -/
theorem upsertOuter_rids_le (server layer : Str) (rid : RId)
    (acc : List (Str × List (Str × RId))) :
    ((ridsOfServers (upsertOuter server layer rid acc) : List RId) : Multiset RId) ≤
      rid ::ₘ ((ridsOfServers acc : List RId) : Multiset RId) := by
  induction acc with
  | nil => simp [upsertOuter, ridsOfServers]
  | cons p t ih =>
      obtain ⟨u, inner⟩ := p
      rw [upsertOuter]
      by_cases hu : u = server
      · rw [if_pos hu]
        have e1 : ridsOfServers ((u, upsertInner layer rid inner) :: t) =
            (upsertInner layer rid inner).map (·.2) ++ ridsOfServers t := by
          simp [ridsOfServers]
        have e2 : ridsOfServers ((u, inner) :: t) =
            inner.map (·.2) ++ ridsOfServers t := by
          simp [ridsOfServers]
        rw [e1, e2, ← Multiset.coe_add, ← Multiset.coe_add]
        calc ((upsertInner layer rid inner).map (·.2) : Multiset RId)
              + (ridsOfServers t : Multiset RId)
            ≤ (rid ::ₘ (inner.map (·.2) : Multiset RId)) + (ridsOfServers t : Multiset RId) :=
              add_le_add_right (upsertInner_rids_le layer rid inner) _
          _ = rid ::ₘ ((inner.map (·.2) : Multiset RId) + (ridsOfServers t : Multiset RId)) :=
              Multiset.cons_add _ _ _
      · rw [if_neg hu]
        have e1 : ridsOfServers ((u, inner) :: upsertOuter server layer rid t) =
            inner.map (·.2) ++ ridsOfServers (upsertOuter server layer rid t) := by
          simp [ridsOfServers]
        have e2 : ridsOfServers ((u, inner) :: t) =
            inner.map (·.2) ++ ridsOfServers t := by
          simp [ridsOfServers]
        rw [e1, e2, ← Multiset.coe_add, ← Multiset.coe_add]
        calc ((inner.map (·.2) : List RId) : Multiset RId)
              + (ridsOfServers (upsertOuter server layer rid t) : Multiset RId)
            ≤ ((inner.map (·.2) : List RId) : Multiset RId)
              + (rid ::ₘ (ridsOfServers t : Multiset RId)) :=
              add_le_add_left ih _
          _ = rid ::ₘ (((inner.map (·.2) : List RId) : Multiset RId)
              + (ridsOfServers t : Multiset RId)) := Multiset.add_cons _ _ _

/-- Folding the scan into the server map keeps the stored ids within the
scanned ids. -/
theorem foldl_upsert_rids_le (cands : List WmsCandidate)
    (acc : List (Str × List (Str × RId))) :
    ((ridsOfServers (cands.foldl (fun a c => upsertOuter c.server c.layerKey c.rid a) acc) :
        List RId) : Multiset RId) ≤
      ((ridsOfServers acc : List RId) : Multiset RId) + ((cands.map (·.rid) : List RId) : Multiset RId) := by
  induction cands generalizing acc with
  | nil => simp
  | cons c t ih =>
      rw [List.foldl_cons, List.map_cons, ← Multiset.cons_coe, Multiset.add_cons]
      calc ((ridsOfServers (t.foldl (fun a c => upsertOuter c.server c.layerKey c.rid a)
              (upsertOuter c.server c.layerKey c.rid acc)) : List RId) : Multiset RId)
          ≤ ((ridsOfServers (upsertOuter c.server c.layerKey c.rid acc) : List RId) : Multiset RId)
            + ((t.map (·.rid) : List RId) : Multiset RId) := ih _
        _ ≤ (c.rid ::ₘ ((ridsOfServers acc : List RId) : Multiset RId))
            + ((t.map (·.rid) : List RId) : Multiset RId) :=
            add_le_add_right (upsertOuter_rids_le c.server c.layerKey c.rid acc) _
        _ = c.rid ::ₘ (((ridsOfServers acc : List RId) : Multiset RId)
            + ((t.map (·.rid) : List RId) : Multiset RId)) := Multiset.cons_add _ _ _

/-- The grouped ids are among the scanned ids (with multiplicity). -/
theorem groupedRids_le (json : PackageSearchResponse) :
    ((groupedRids json : List RId) : Multiset RId) ≤
      (((wmsCandidates json).map (·.rid) : List RId) : Multiset RId) := by
  have h := foldl_upsert_rids_le (wmsCandidates json) []
  have hnil : ridsOfServers ([] : List (Str × List (Str × RId))) = [] := rfl
  rw [hnil] at h
  simpa [groupedRids, buildWmsServers] using h

/-- The grouped ids are pairwise distinct: each resource is tracked at
most once. -/
theorem groupedRids_nodup (json : PackageSearchResponse) :
    (groupedRids json).Nodup := by
  rw [← Multiset.coe_nodup]
  exact Multiset.nodup_of_le (groupedRids_le json)
    (Multiset.coe_nodup.mpr (candRids_nodup json))

/-- A grouped id is a scanned id. -/
theorem mem_candRids_of_grouped (json : PackageSearchResponse) (rid : RId)
    (h : rid ∈ groupedRids json) : rid ∈ (wmsCandidates json).map (·.rid) := by
  have hm := Multiset.mem_of_le (groupedRids_le json) (Multiset.mem_coe.mpr h)
  exact Multiset.mem_coe.mp hm

/-- A scanned id addresses a real resource of the response. -/
theorem resourceAt_of_candRid (json : PackageSearchResponse) (rid : RId)
    (h : rid ∈ (wmsCandidates json).map (·.rid)) :
    ∃ r, resourceAt json rid = some r := by
  rcases List.mem_map.mp h with ⟨c, hc, hrid⟩
  unfold wmsCandidates at hc
  rcases List.mem_flatMap.mp hc with ⟨p, hp, hinner⟩
  rcases List.mem_filterMap.mp hinner with ⟨q, hq, hcand⟩
  have h1 : json.result.results[p.1]? = some p.2 := List.mem_enum_iff_getElem?.mp hp
  have h2 : p.2.resources[q.1]? = some q.2 := List.mem_enum_iff_getElem?.mp hq
  refine ⟨q.2, ?_⟩
  rw [← hrid, candOf_rid p.1 q c hcand]
  unfold resourceAt
  rw [List.get?_eq_getElem?, h1, Option.some_bind, List.get?_eq_getElem?, h2]

/-- An entry of the server map yields a grouped id. -/
theorem mem_groupedRids_of_entry (json : PackageSearchResponse) (url : Str)
    (inner : List (Str × RId)) (l : Str) (r : RId)
    (hmem : (url, inner) ∈ buildWmsServers (wmsCandidates json))
    (hent : (l, r) ∈ inner) : r ∈ groupedRids json := by
  unfold groupedRids ridsOfServers
  exact List.mem_flatMap.mpr ⟨(url, inner), hmem, List.mem_map.mpr ⟨(l, r), hent, rfl⟩⟩

/-! ## C6: capability failure is local -/

/-- Claim C6. If the capability fetch (or parse) for one server fails, every
resource grouped under that server ends with its filtered flag `true`
(excluded); the flags of resources grouped under any other server entry
depend only on that server's own capability response (changing the oracle
elsewhere, e.g. making another server fail, leaves them unchanged); and
the load's settlement status never depends on the capability oracle: the
failure is not surfaced and does not abort the run. -/
theorem c6_capability_failure_isolated (thresh : Option Int) (proxy : CorsProxy)
    (fc fc2 : Str → Option CapForest) (json : PackageSearchResponse)
    (url url2 : Str) (inner inner2 : List (Str × RId)) (l l2 : Str) (r r2 : RId)
    (cfg : CkanConfig) (app : Application)
    (fj : Str → Option PackageSearchResponse) (root : RootGroup)
    (hmem : (url, inner) ∈ buildWmsServers (wmsCandidates json))
    (hentry : (l, r) ∈ inner)
    (hfail : fc (getCapabilitiesUrlFor proxy url) = none)
    (hmem2 : (url2, inner2) ∈ buildWmsServers (wmsCandidates json))
    (hentry2 : (l2, r2) ∈ inner2)
    (hagree : fc2 (getCapabilitiesUrlFor proxy url2) = fc (getCapabilitiesUrlFor proxy url2)) :
    flagAt (filterResultsByGetCapabilities thresh proxy fc json) r = some (some true) ∧
      flagAt (filterResultsByGetCapabilities thresh proxy fc2 json) r2 =
        flagAt (filterResultsByGetCapabilities thresh proxy fc json) r2 ∧
      (loadCkanGroup cfg app proxy fj fc root).result =
        (loadCkanGroup cfg app proxy fj fc2 root).result := by
  have hfstA : ((buildWmsServers (wmsCandidates json)).flatMap
      (serverAssignment thresh proxy fc)).map (·.1) = groupedRids json :=
    assignment_map_fst thresh proxy fc _
  have hfstA2 : ((buildWmsServers (wmsCandidates json)).flatMap
      (serverAssignment thresh proxy fc2)).map (·.1) = groupedRids json :=
    assignment_map_fst thresh proxy fc2 _
  have hndA : (((buildWmsServers (wmsCandidates json)).flatMap
      (serverAssignment thresh proxy fc)).map (·.1)).Nodup := by
    rw [hfstA]; exact groupedRids_nodup json
  have hndA2 : (((buildWmsServers (wmsCandidates json)).flatMap
      (serverAssignment thresh proxy fc2)).map (·.1)).Nodup := by
    rw [hfstA2]; exact groupedRids_nodup json
  refine ⟨?_, ?_, ?_⟩
  · have hmemA : (r, true) ∈ (buildWmsServers (wmsCandidates json)).flatMap
        (serverAssignment thresh proxy fc) := by
      refine List.mem_flatMap.mpr ⟨(url, inner), hmem, ?_⟩
      rw [serverAssignment_of_failure thresh proxy fc (url, inner) hfail]
      exact List.mem_map.mpr ⟨(l, r), hentry, rfl⟩
    have hlk : lookupRid ((buildWmsServers (wmsCandidates json)).flatMap
        (serverAssignment thresh proxy fc)) r = some true :=
      lookupRid_eq_of_mem_nodup _ r true hmemA hndA
    rcases resourceAt_of_candRid json r (mem_candRids_of_grouped json r
      (mem_groupedRids_of_entry json url inner l r hmem hentry)) with ⟨rr, hrr⟩
    unfold filterResultsByGetCapabilities flagAt
    rw [resourceAt_applyFlags, hrr, hlk]
    rfl
  · have hblocks : serverAssignment thresh proxy fc2 (url2, inner2) =
        serverAssignment thresh proxy fc (url2, inner2) := by
      unfold serverAssignment
      rw [hagree]
    rcases mem_serverAssignment thresh proxy fc (url2, inner2) l2 r2 hentry2 with ⟨b, hb⟩
    have hbA : (r2, b) ∈ (buildWmsServers (wmsCandidates json)).flatMap
        (serverAssignment thresh proxy fc) :=
      List.mem_flatMap.mpr ⟨(url2, inner2), hmem2, hb⟩
    have hbA2 : (r2, b) ∈ (buildWmsServers (wmsCandidates json)).flatMap
        (serverAssignment thresh proxy fc2) := by
      refine List.mem_flatMap.mpr ⟨(url2, inner2), hmem2, ?_⟩
      rw [hblocks]
      exact hb
    have hlk : lookupRid ((buildWmsServers (wmsCandidates json)).flatMap
        (serverAssignment thresh proxy fc)) r2 = some b :=
      lookupRid_eq_of_mem_nodup _ r2 b hbA hndA
    have hlk2 : lookupRid ((buildWmsServers (wmsCandidates json)).flatMap
        (serverAssignment thresh proxy fc2)) r2 = some b :=
      lookupRid_eq_of_mem_nodup _ r2 b hbA2 hndA2
    unfold filterResultsByGetCapabilities flagAt
    rw [resourceAt_applyFlags, resourceAt_applyFlags, hlk, hlk2]
  · unfold loadCkanGroup
    dsimp only
    repeat' split
    all_goals rfl

/-- Witness for `c6_capability_failure_isolated`: one record with two
resources on two servers; server `a`'s capability fetch fails under both
oracles agreeing on server `b`. -/
theorem c6_capability_failure_isolated_witness :
    flagAt (filterResultsByGetCapabilities none noProxy capsOnlyB twoServerJson)
        (0, 0) = some (some true) ∧
      flagAt (filterResultsByGetCapabilities none noProxy capsBothAB twoServerJson)
          (0, 1) =
        flagAt (filterResultsByGetCapabilities none noProxy capsOnlyB twoServerJson)
          (0, 1) ∧
      (loadCkanGroup crossValidatingConfig {} noProxy
          (fun _ => some twoServerJson) capsOnlyB ⟨[]⟩).result =
        (loadCkanGroup crossValidatingConfig {} noProxy
          (fun _ => some twoServerJson) capsBothAB ⟨[]⟩).result :=
  c6_capability_failure_isolated none noProxy capsOnlyB capsBothAB twoServerJson
    (str "http://a/wms") (str "http://b/wms")
    [(str "x", (0, 0))] [(str "y", (0, 1))] (str "x") (str "y") (0, 0) (0, 1)
    crossValidatingConfig {} (fun _ => some twoServerJson) ⟨[]⟩
    (by decide) (by decide) rfl (by decide) (by decide) rfl

/-! ## C1: shared (endpoint, layer) keys -/

/-- Claim C1, counterexample. Two records whose WMS resources resolve to the
same `(endpoint, layer)` key, with a capability document that does not
list the layer: the two filtered flags do *not* end with the same value —
the earlier resource's flag is never set (`none`) while the later one's
is `true` — and the earlier resource is not excluded: the built tree
contains its item. -/
theorem c1_counterexample :
    flagAt (filterResultsByGetCapabilities none noProxy noMatchCaps duplicateKeyJson)
        (0, 0) = some none ∧
      flagAt (filterResultsByGetCapabilities none noProxy noMatchCaps duplicateKeyJson)
          (1, 0) = some (some true) ∧
      populateGroupFromResults crossValidatingConfig ⟨[]⟩
          (filterResultsByGetCapabilities none noProxy noMatchCaps duplicateKeyJson) =
        ⟨[⟨str "G", [dupIncludedItemNode]⟩]⟩ := by
  decide

/-- Claim C1, amended. The grouping map keeps only the last-scanned resource
per `(endpoint, layer)` key.  Exactly the resources in the final map have
their filtered flag settled: a kept entry's flag is set to the computed
decision (so it is `some` of a boolean), while every resource id outside
the final grouping — in particular one overwritten by a later resource
with the same key — is left entirely unchanged, its flag unset, and the
tree builder therefore treats it as included. -/
theorem c1_last_write_wins_amended (thresh : Option Int) (proxy : CorsProxy)
    (fc : Str → Option CapForest) (json : PackageSearchResponse)
    (url : Str) (inner : List (Str × RId)) (l : Str) (r rid : RId)
    (hmem : (url, inner) ∈ buildWmsServers (wmsCandidates json))
    (hentry : (l, r) ∈ inner)
    (hout : rid ∉ groupedRids json) :
    (lookupRid ((buildWmsServers (wmsCandidates json)).flatMap
        (serverAssignment thresh proxy fc)) r).isSome = true ∧
      flagAt (filterResultsByGetCapabilities thresh proxy fc json) r =
        Option.map some (lookupRid ((buildWmsServers (wmsCandidates json)).flatMap
          (serverAssignment thresh proxy fc)) r) ∧
      resourceAt (filterResultsByGetCapabilities thresh proxy fc json) rid =
        resourceAt json rid := by
  have hfstA : ((buildWmsServers (wmsCandidates json)).flatMap
      (serverAssignment thresh proxy fc)).map (·.1) = groupedRids json :=
    assignment_map_fst thresh proxy fc _
  have hgrp : r ∈ groupedRids json :=
    mem_groupedRids_of_entry json url inner l r hmem hentry
  have hsome : (lookupRid ((buildWmsServers (wmsCandidates json)).flatMap
      (serverAssignment thresh proxy fc)) r).isSome = true := by
    refine lookupRid_isSome_of_mem _ r ?_
    rw [hfstA]
    exact hgrp
  refine ⟨hsome, ?_, ?_⟩
  · rcases Option.isSome_iff_exists.mp hsome with ⟨b, hb⟩
    rcases resourceAt_of_candRid json r (mem_candRids_of_grouped json r hgrp) with ⟨rr, hrr⟩
    unfold filterResultsByGetCapabilities flagAt
    rw [resourceAt_applyFlags, hrr, hb]
    rfl
  · have hnone : lookupRid ((buildWmsServers (wmsCandidates json)).flatMap
        (serverAssignment thresh proxy fc)) rid = none := by
      refine lookupRid_eq_none _ rid ?_
      rw [hfstA]
      exact hout
    unfold filterResultsByGetCapabilities
    rw [resourceAt_applyFlags, hnone]
    cases resourceAt json rid <;> rfl

/-- Witness for `c1_last_write_wins_amended` on `duplicateKeyJson`: the
kept entry is record 1's resource, the overwritten id is record 0's. -/
theorem c1_last_write_wins_amended_witness :
    (lookupRid ((buildWmsServers (wmsCandidates duplicateKeyJson)).flatMap
        (serverAssignment none noProxy noMatchCaps)) (1, 0)).isSome = true ∧
      flagAt (filterResultsByGetCapabilities none noProxy noMatchCaps duplicateKeyJson)
          (1, 0) =
        Option.map some (lookupRid ((buildWmsServers (wmsCandidates duplicateKeyJson)).flatMap
          (serverAssignment none noProxy noMatchCaps)) (1, 0)) ∧
      resourceAt (filterResultsByGetCapabilities none noProxy noMatchCaps duplicateKeyJson)
          (0, 0) =
        resourceAt duplicateKeyJson (0, 0) :=
  c1_last_write_wins_amended none noProxy noMatchCaps duplicateKeyJson
    (str "http://s/wms") [(str "rain", (1, 0))] (str "rain") (1, 0) (0, 0)
    (by decide) (by decide) (by decide)

/-! ## C9: lowercase `layers` parameters -/

/-- Claim C9, counterexample. A WMS resource whose URL carries its layer
name only as `layers=undefined`: the coordinator groups it under the JS
property key `"undefined"`, so a capability layer literally named
`undefined` — here the resource's actual layer name — *does* clear the
flag, and the item appears in the tree, contradicting the claim that no
entry bearing the actual layer name can clear it. -/
theorem c9_counterexample :
    flagAt (filterResultsByGetCapabilities none noProxy undefinedNameCaps
        (lowercaseLayersJson (str "http://s/wms?layers=undefined"))) (0, 0) =
      some (some false) ∧
      populateGroupFromResults crossValidatingConfig ⟨[]⟩
          (filterResultsByGetCapabilities none noProxy undefinedNameCaps
            (lowercaseLayersJson (str "http://s/wms?layers=undefined"))) =
        ⟨[⟨str "G", [undefinedLayerItemNode]⟩]⟩ := by
  decide

/-- Claim C9, amended. For a WMS resource whose URL carries its layer name
only in a lowercase `layers` parameter, the coordinator derives its key
from the uppercase `LAYERS` parameter alone and so groups the resource
under the literal property key `"undefined"`; whenever the fetched
capability document contains no node literally named `undefined` — in
particular when it lists the resource's actual layer name `n` and
`n ≠ "undefined"` — the flag stays `true` and the resource is excluded
from the tree. -/
theorem c9_lowercase_layers_amended (thresh : Option Int) (proxy : CorsProxy)
    (fc : Str → Option CapForest) (u n : Str) (doc : CapForest)
    (hL : getParam u (str "LAYERS") = none)
    (hl : getParam u (str "layers") = some n)
    (hdoc : fc (getCapabilitiesUrlFor proxy (stripQuery u)) = some doc)
    (hmention : mentionsName (str "undefined") doc = false) :
    buildWmsServers (wmsCandidates (lowercaseLayersJson u)) =
        [(stripQuery u, [(str "undefined", ((0, 0) : RId))])] ∧
      flagAt (filterResultsByGetCapabilities thresh proxy fc (lowercaseLayersJson u))
          (0, 0) = some (some true) ∧
      populateGroupFromResults crossValidatingConfig ⟨[]⟩
          (filterResultsByGetCapabilities thresh proxy fc (lowercaseLayersJson u)) =
        ⟨[]⟩ := by
  have hkey : layerKeyOf u = str "undefined" := by
    unfold layerKeyOf
    rw [hL]
  have hcands : wmsCandidates (lowercaseLayersJson u) =
      [⟨stripQuery u, str "undefined", (0, 0)⟩] := by
    have h0 : wmsCandidates (lowercaseLayersJson u) =
        [⟨stripQuery u, layerKeyOf u, (0, 0)⟩] := rfl
    rw [h0, hkey]
  have hserv : buildWmsServers (wmsCandidates (lowercaseLayersJson u)) =
      [(stripQuery u, [(str "undefined", ((0, 0) : RId))])] := by
    rw [hcands]
    rfl
  have hstore : filterBasedOnGetCapabilities thresh
      (fc (getCapabilitiesUrlFor proxy (stripQuery u)))
      [(str "undefined", ((0, 0) : RId))] =
      [(str "undefined", ((0, 0) : RId), true)] := by
    rw [hdoc]
    show filterBasedOnGetCapabilitiesResponse thresh doc
        [(str "undefined", ((0, 0) : RId), true)] =
      [(str "undefined", ((0, 0) : RId), true)]
    refine walk_no_mention thresh doc _ ?_
    intro e he
    rw [List.mem_singleton.mp he]
    exact hmention
  have hA : (buildWmsServers (wmsCandidates (lowercaseLayersJson u))).flatMap
      (serverAssignment thresh proxy fc) = [(((0, 0) : RId), true)] := by
    rw [hserv]
    show (filterBasedOnGetCapabilities thresh
        (fc (getCapabilitiesUrlFor proxy (stripQuery u)))
        [(str "undefined", ((0, 0) : RId))]).map (fun e => (e.2.1, e.2.2)) ++ [] =
      [(((0, 0) : RId), true)]
    rw [hstore]
    rfl
  have hfilter : filterResultsByGetCapabilities thresh proxy fc (lowercaseLayersJson u) =
      applyFlags [(((0, 0) : RId), true)] (lowercaseLayersJson u) := by
    unfold filterResultsByGetCapabilities
    dsimp only
    rw [hA]
  refine ⟨hserv, ?_, ?_⟩
  · rw [hfilter]
    rfl
  · rw [hfilter]
    rfl

/-- Witness for `c9_lowercase_layers_amended`: `layers=rain`, and the
capability document lists exactly the layer `rain`, in scale. -/
theorem c9_lowercase_layers_amended_witness :
    buildWmsServers (wmsCandidates (lowercaseLayersJson (str "http://s/wms?layers=rain"))) =
        [(stripQuery (str "http://s/wms?layers=rain"),
          [(str "undefined", ((0, 0) : RId))])] ∧
      flagAt (filterResultsByGetCapabilities none noProxy rainOnlyCaps
          (lowercaseLayersJson (str "http://s/wms?layers=rain"))) (0, 0) =
        some (some true) ∧
      populateGroupFromResults crossValidatingConfig ⟨[]⟩
          (filterResultsByGetCapabilities none noProxy rainOnlyCaps
            (lowercaseLayersJson (str "http://s/wms?layers=rain"))) =
        ⟨[]⟩ :=
  c9_lowercase_layers_amended none noProxy rainOnlyCaps
    (str "http://s/wms?layers=rain") (str "rain")
    (.cons (.mk (some (str "rain")) none .nil) .nil)
    (by decide) (by decide) rfl (by decide)

end CkanSpec